import Mathlib

/-!
Shallow embedding of `src/spn/experiments/RandomSPNs_layerwise/distributions.py`
(RAT-SPN leaf layers): the bounded Gaussian leaf `RatNormal` and the composite
leaf `IndependentMultivariate`.

Python floats are modelled by real numbers (`ℝ`) where the claims are about the
smooth bounding transforms, and by rationals (`ℚ`) where only order comparisons
matter (construction-time validation), so that those definitions stay
executable.  Tensors are modelled by nested lists: a batch input is
`List (List ℝ)` of shape `[B, F]`, a per-feature log-likelihood tensor is
`List (List (List ℝ))` of shape `[B, F, M]`.

The external collaborators `check_valid` (spn.algorithms.layerwise.type_checks),
the generic `Leaf` forward dispatch and the `Product` layer are not part of the
source fragment; they are modelled from the spec where a claim depends on them,
and marked as such in their doc comments.
-/

/-- Logistic sigmoid, `torch.sigmoid`: `sigmoid x = 1 / (1 + exp (-x))`. -/
noncomputable def sigmoid (x : ℝ) : ℝ := 1 / (1 + Real.exp (-x))

/-- Effective `sigma` of `RatNormal._get_base_distribution` (lines 49-53):
if `min_sigma < max_sigma` then `min_sigma + (max_sigma - min_sigma) * sigmoid raw_std`
else the constant `1.0`. -/
noncomputable def effSigma (min_sigma max_sigma raw_std : ℝ) : ℝ :=
  if min_sigma < max_sigma then min_sigma + (max_sigma - min_sigma) * sigmoid raw_std
  else 1

/-- The standard deviation handed to `dist.Normal` (line 61): `torch.sqrt sigma`. -/
noncomputable def effStd (min_sigma max_sigma raw_std : ℝ) : ℝ :=
  Real.sqrt (effSigma min_sigma max_sigma raw_std)

/-- Effective mean of `RatNormal._get_base_distribution` (lines 55-59).
`none` models `min_mean`/`max_mean` being Python `None`.  The guard is the
Python truthiness test `if self.max_mean:`, which is false both for `None` and
for `0.0`.  The result `none` models the `assert self.min_mean is not None`
failing (max_mean truthy but min_mean absent). -/
noncomputable def effMean (min_mean max_mean : Option ℝ) (raw_mean : ℝ) : Option ℝ :=
  match max_mean with
  | none => some raw_mean
  | some mM =>
    if mM = 0 then some raw_mean
    else
      match min_mean with
      | none => none
      | some m0 => some (sigmoid raw_mean * (mM - m0) + m0)

/-- Padding amount of `IndependentMultivariate.__init__` (line 88):
`(cardinality - in_features % cardinality) % cardinality`. -/
def padAmount (in_features cardinality : ℕ) : ℕ :=
  (cardinality - in_features % cardinality) % cardinality

/-- Modelled from the spec: the construction-time validation performed by
`RatNormal.__init__` (lines 43-46) through the external helper `check_valid`
(spn.algorithms.layerwise.type_checks, not in src/): `min_sigma` must lie in
`[0, max_sigma]`, `max_sigma` must be `≥ min_sigma`, and if either of
`min_mean`/`max_mean` is provided then both must be, with `min_mean ≤ max_mean`;
a violation raises an InvalidConfiguration error at construction time.
The mean-bounds part of the condition is `meanBoundsOk`. -/
def meanBoundsOk : Option ℚ → Option ℚ → Bool
  | none, none => true
  | some m0, some mM => decide (m0 ≤ mM)
  | _, _ => false

/-- Modelled from the spec: see `meanBoundsOk` for the mean-bounds part; this
is the whole construction-time validation of `RatNormal.__init__`. -/
def RatNormal.init (min_sigma max_sigma : ℚ) (min_mean max_mean : Option ℚ) :
    Except String Unit :=
  if 0 ≤ min_sigma ∧ min_sigma ≤ max_sigma ∧ meanBoundsOk min_mean max_mean = true then
    Except.ok ()
  else Except.error "InvalidConfiguration"

/-- Modelled from the spec: the construction-time validation performed by
`IndependentMultivariate.__init__` (line 90) through the external helper
`check_valid(cardinality, int, 2, in_features + 1)` (not in src/): the group
size must satisfy `2 ≤ cardinality ≤ in_features`; a violation raises an
error at construction time. -/
def IndependentMultivariate.init (in_features cardinality : ℕ) :
    Except String Unit :=
  if 2 ≤ cardinality ∧ cardinality ≤ in_features then Except.ok ()
  else Except.error "InvalidConfiguration"

/-- State of an `IndependentMultivariate` layer as far as the base-distribution
accessor is concerned (the accessor reads none of it). -/
structure IndependentMultivariateState where
  multiplicity : ℕ
  in_features : ℕ
  cardinality : ℕ
  pad : ℕ

/-- The accessor `IndependentMultivariate._get_base_distribution` (lines
107-108): it unconditionally raises. -/
def IndependentMultivariate.getBaseDistribution (_s : IndependentMultivariateState) :
    Except String Unit :=
  Except.error "IndependentMultivariate does not have an explicit PyTorch base distribution."

/-- Splits a list into consecutive chunks of size `C` (the last chunk may be
shorter).  This is the fixed partition of the feature axis used by the
`Product` combiner. -/
def chunkList (C : ℕ) (l : List α) : List (List α) :=
  match l with
  | [] => []
  | x :: xs =>
    if h : C = 0 then []
    else
      have : ((x :: xs).drop C).length < (x :: xs).length := by
        have hC : 0 < C := Nat.pos_of_ne_zero h
        simp [List.length_drop]
        omega
      List.take C (x :: xs) :: chunkList C ((x :: xs).drop C)
termination_by l.length

/-- A row of `M` zero log-likelihoods (one per multiplicity channel). -/
def zeroRow (M : ℕ) : List ℝ := List.replicate M 0

/-- Sum of the member rows of one feature group, elementwise over the
multiplicity axis.  Modelled from the spec: the `Product` combiner sums
log-likelihoods within each group of `cardinality` consecutive features. -/
def groupSum (M : ℕ) (g : List (List ℝ)) : List ℝ :=
  g.foldr (fun a b => List.zipWith (fun u v => u + v) a b) (zeroRow M)

/-- Modelled from the spec: the `Product` combiner's forward pass (the external
`Product` layer, not in src/): partition the feature axis into consecutive
groups of size `C` and sum log-likelihoods within each group, for every batch
element. -/
def prodForward (M C : ℕ) (y : List (List (List ℝ))) : List (List (List ℝ)) :=
  y.map fun row => (chunkList C row).map (groupSum M)

/-- Modelled from the spec: the generic `Leaf` forward dispatch invoked by
`self.base_leaf(x)` (line 98; the dispatch machinery lives outside the source
fragment): it maps an input of shape `[B, F]` to per-feature per-replica
log-likelihoods of shape `[B, F, M]`, where entry `[b, f, m]` is the
log-likelihood of `x[b][f]` under the `(f, m)`-th effective distribution.
The scalar log-likelihood function `ll f m v` is a parameter because its
numeric definition lives in the external dispatch. -/
def baseLeafForward (ll : ℕ → ℕ → ℝ → ℝ) (M : ℕ) (x : List (List ℝ)) :
    List (List (List ℝ)) :=
  x.map fun row => row.enum.map fun fv => (List.range M).map fun m => ll fv.1 m fv.2

/-- The padding step of `IndependentMultivariate.forward` (lines 100-102):
when `pad` is nonzero, append `pad` zero-valued slices at the end of the
feature axis (`F.pad(x, pad=[0, 0, 0, self._pad], mode="constant", value=0.0)`);
when `pad = 0` the tensor is left untouched (`if self._pad:`). -/
def padRows (pad M : ℕ) (y : List (List (List ℝ))) : List (List (List ℝ)) :=
  if pad = 0 then y
  else y.map fun row => row ++ List.replicate pad (zeroRow M)

/-- `IndependentMultivariate.forward` (lines 97-105) for a layer configured
with `in_features = F`, `cardinality = C`, `multiplicity = M`:
base leaf, then padding by the stored `_pad = padAmount F C`, then the
`Product` combiner. -/
def IndependentMultivariate.forward (ll : ℕ → ℕ → ℝ → ℝ) (M C F : ℕ)
    (x : List (List ℝ)) : List (List (List ℝ)) :=
  prodForward M C (padRows (padAmount F C) M (baseLeafForward ll M x))

/-- Variant of the forward pass that never pads: the last (possibly shorter)
group sums only the log-likelihoods of the real features.  Used to state that
padding is equivalent to omitting the padded positions from their group's
sum. -/
def IndependentMultivariate.forwardNoPad (ll : ℕ → ℕ → ℝ → ℝ) (M C : ℕ)
    (x : List (List ℝ)) : List (List (List ℝ)) :=
  prodForward M C (baseLeafForward ll M x)

/-- Events recording which collaborator `IndependentMultivariate.sample` calls,
with which arguments. -/
inductive SampleCall where
  | prodSampleCall (indices : Option (List ℕ)) (n : Option ℕ)
  | leafSampleCall (indices : List ℕ) (n : Option ℕ)
  deriving DecidableEq, Repr

/-- The method `IndependentMultivariate.sample` (lines 110-114), parameterized
over the two external collaborators it delegates to: `prodSample` is
`self.prod.sample` and `leafSample` is `self.base_leaf.sample` (both outside
the source fragment).  The body is a direct transcription:
`indices = self.prod.sample(indices=indices, n=n)` followed by
`samples = self.base_leaf.sample(indices=indices, n=n)`. -/
def IndependentMultivariate.sample
    (prodSample : Option (List ℕ) → Option ℕ → List ℕ)
    (leafSample : List ℕ → Option ℕ → List ℝ)
    (indices : Option (List ℕ)) (_evidence : Option (List ℝ)) (n : Option ℕ) :
    List ℝ :=
  let indices2 := prodSample indices n
  let samples := leafSample indices2 n
  samples

/-- Same as `IndependentMultivariate.sample` but also returning the trace of
collaborator calls, in order. -/
def IndependentMultivariate.sampleTraced
    (prodSample : Option (List ℕ) → Option ℕ → List ℕ)
    (leafSample : List ℕ → Option ℕ → List ℝ)
    (indices : Option (List ℕ)) (_evidence : Option (List ℝ)) (n : Option ℕ) :
    List SampleCall × List ℝ :=
  let indices2 := prodSample indices n
  let samples := leafSample indices2 n
  ([SampleCall.prodSampleCall indices n, SampleCall.leafSampleCall indices2 n], samples)

/-- C5: for every `IndependentMultivariate` configured with `in_features = F`
and `cardinality = C` (valid cardinalities are `≥ 2`), the stored `_pad`
equals `(C - F % C) % C` and lies in `[0, C - 1]`; in particular it is `2`
for `F = 10, C = 3` and `0` for `F = 9, C = 3`. -/
theorem padAmount_spec (F C : ℕ) (hC : 2 ≤ C) :
    padAmount F C = (C - F % C) % C ∧ padAmount F C ≤ C - 1 ∧
    padAmount 10 3 = 2 ∧ padAmount 9 3 = 0 := by
  refine ⟨rfl, ?_, by decide, by decide⟩
  have h0 : 0 < C := by omega
  have h := Nat.mod_lt (C - F % C) h0
  unfold padAmount
  omega

theorem padAmount_spec_witness :
    2 ≤ 3 ∧ (padAmount 10 3 = (3 - 10 % 3) % 3 ∧ padAmount 10 3 ≤ 3 - 1 ∧
      padAmount 10 3 = 2 ∧ padAmount 9 3 = 0) :=
  ⟨by decide, padAmount_spec 10 3 (by decide)⟩

/-- C6: invoking the base-distribution accessor on an `IndependentMultivariate`
instance always fails with an error and never returns a value. -/
theorem independentMultivariate_getBaseDistribution_fails
    (s : IndependentMultivariateState) :
    (∃ msg, IndependentMultivariate.getBaseDistribution s = Except.error msg) ∧
    ∀ v, IndependentMultivariate.getBaseDistribution s ≠ Except.ok v :=
  ⟨⟨_, rfl⟩, fun v h => by simp [IndependentMultivariate.getBaseDistribution] at h⟩

/-- C7: `RatNormal` construction fails with InvalidConfiguration exactly when
`min_sigma` is outside `[0, max_sigma]` (equivalently, `min_sigma < 0` or
`max_sigma < min_sigma`), or exactly one of `min_mean`/`max_mean` is provided,
or both are provided with `min_mean > max_mean`; otherwise it succeeds. -/
theorem ratNormal_init_validation (ms Ms : ℚ) (mm Mm : Option ℚ) :
    (RatNormal.init ms Ms mm Mm = Except.error "InvalidConfiguration" ↔
      ms < 0 ∨ Ms < ms ∨ mm.isSome ≠ Mm.isSome ∨
        ∃ a b, mm = some a ∧ Mm = some b ∧ b < a) ∧
    (RatNormal.init ms Ms mm Mm = Except.ok () ↔
      ¬ (ms < 0 ∨ Ms < ms ∨ mm.isSome ≠ Mm.isSome ∨
        ∃ a b, mm = some a ∧ Mm = some b ∧ b < a)) := by
  have herr : RatNormal.init ms Ms mm Mm = Except.error "InvalidConfiguration" ↔
      ¬ (0 ≤ ms ∧ ms ≤ Ms ∧ meanBoundsOk mm Mm = true) := by
    unfold RatNormal.init
    split_ifs with h <;> simp [h]
  have hok : RatNormal.init ms Ms mm Mm = Except.ok () ↔
      (0 ≤ ms ∧ ms ≤ Ms ∧ meanBoundsOk mm Mm = true) := by
    unfold RatNormal.init
    split_ifs with h <;> simp [h]
  have hbad : (¬ (0 ≤ ms ∧ ms ≤ Ms ∧ meanBoundsOk mm Mm = true)) ↔
      (ms < 0 ∨ Ms < ms ∨ mm.isSome ≠ Mm.isSome ∨
        ∃ a b, mm = some a ∧ Mm = some b ∧ b < a) := by
    rcases mm with _ | a <;> rcases Mm with _ | b <;>
      simp [meanBoundsOk, not_and_or, not_le]
    · constructor
      · intro h
        rcases le_or_lt 0 ms with h0 | h0
        · exact Or.inr (h h0)
        · exact Or.inl h0
      · intro h h0
        rcases h with h | h
        · exact (h.not_le h0).elim
        · exact h
    · constructor
      · intro h
        rcases le_or_lt 0 ms with h0 | h0
        · rcases le_or_lt ms Ms with h1 | h1
          · exact Or.inr (Or.inr (h h0 h1))
          · exact Or.inr (Or.inl h1)
        · exact Or.inl h0
      · intro h h0 h1
        rcases h with h | h | h
        · exact (h.not_le h0).elim
        · exact (h.not_le h1).elim
        · exact h
  exact ⟨herr.trans hbad, hok.trans (by rw [← hbad, not_not])⟩

/-- C8: `IndependentMultivariate` construction fails exactly when
`cardinality < 2` or `cardinality > in_features`; in particular
`in_features = 1, cardinality = 2` fails. -/
theorem independentMultivariate_init_validation (F C : ℕ) :
    (IndependentMultivariate.init F C = Except.error "InvalidConfiguration" ↔
      C < 2 ∨ F < C) ∧
    IndependentMultivariate.init 1 2 = Except.error "InvalidConfiguration" := by
  refine ⟨?_, by rfl⟩
  unfold IndependentMultivariate.init
  split_ifs with h <;> simp <;> omega

/-- C9: `IndependentMultivariate.sample` first calls the combiner's sample
with the given `indices` and `n`, then calls the base leaf's sample with the
per-feature indices the combiner returned (and the same `n`), and returns the
base leaf's result unchanged: combiner first, leaf second — the opposite order
from forward. -/
theorem independentMultivariate_sample_order
    (prodSample : Option (List ℕ) → Option ℕ → List ℕ)
    (leafSample : List ℕ → Option ℕ → List ℝ)
    (indices : Option (List ℕ)) (evidence : Option (List ℝ)) (n : Option ℕ) :
    (IndependentMultivariate.sampleTraced prodSample leafSample indices evidence n).1
      = [SampleCall.prodSampleCall indices n,
         SampleCall.leafSampleCall (prodSample indices n) n] ∧
    IndependentMultivariate.sample prodSample leafSample indices evidence n
      = leafSample (prodSample indices n) n ∧
    IndependentMultivariate.sample prodSample leafSample indices evidence n
      = (IndependentMultivariate.sampleTraced prodSample leafSample indices evidence n).2 :=
  ⟨rfl, rfl, rfl⟩

/-- C10: `IndependentMultivariate.sample` never reads its `evidence` argument:
two calls that differ only in `evidence` produce identical call traces and
identical results. -/
theorem independentMultivariate_sample_evidence_irrelevant
    (prodSample : Option (List ℕ) → Option ℕ → List ℕ)
    (leafSample : List ℕ → Option ℕ → List ℝ)
    (indices : Option (List ℕ)) (evidence1 evidence2 : Option (List ℝ))
    (n : Option ℕ) :
    IndependentMultivariate.sample prodSample leafSample indices evidence1 n
      = IndependentMultivariate.sample prodSample leafSample indices evidence2 n ∧
    IndependentMultivariate.sampleTraced prodSample leafSample indices evidence1 n
      = IndependentMultivariate.sampleTraced prodSample leafSample indices evidence2 n :=
  ⟨rfl, rfl⟩

/-- The sigmoid takes values strictly above 0. -/
theorem sigmoid_pos (x : ℝ) : 0 < sigmoid x := by
  unfold sigmoid
  have h := Real.exp_pos (-x)
  positivity

/-- The sigmoid takes values strictly below 1. -/
theorem sigmoid_lt_one (x : ℝ) : sigmoid x < 1 := by
  unfold sigmoid
  have h := Real.exp_pos (-x)
  rw [div_lt_one (by linarith)]
  linarith

/-- C1: when `min_sigma < max_sigma`, the effective sigma equals
`min_sigma + (max_sigma - min_sigma) * sigmoid raw_std`, lies strictly between
`min_sigma` and `max_sigma`, and the standard deviation handed to the Normal
distribution is its square root (so the effective variance is sigma itself);
when `min_sigma = max_sigma`, sigma is the constant `1.0` and the effective
variance is exactly `1.0` regardless of the raw parameter value. -/
theorem ratNormal_sigma_bounds (min_sigma max_sigma raw_std : ℝ)
    (h0 : 0 ≤ min_sigma) :
    (min_sigma < max_sigma →
      effSigma min_sigma max_sigma raw_std
          = min_sigma + (max_sigma - min_sigma) * sigmoid raw_std ∧
      min_sigma < effSigma min_sigma max_sigma raw_std ∧
      effSigma min_sigma max_sigma raw_std < max_sigma ∧
      effStd min_sigma max_sigma raw_std ^ 2
          = effSigma min_sigma max_sigma raw_std) ∧
    (min_sigma = max_sigma →
      effSigma min_sigma max_sigma raw_std = 1 ∧
      effStd min_sigma max_sigma raw_std ^ 2 = 1) := by
  constructor
  · intro hlt
    have hs0 := sigmoid_pos raw_std
    have hs1 := sigmoid_lt_one raw_std
    have heq : effSigma min_sigma max_sigma raw_std
        = min_sigma + (max_sigma - min_sigma) * sigmoid raw_std := if_pos hlt
    refine ⟨heq, ?_, ?_, ?_⟩
    · rw [heq]; nlinarith
    · rw [heq]; nlinarith
    · unfold effStd
      rw [Real.sq_sqrt]
      rw [heq]; nlinarith
  · intro heq
    have h1 : effSigma min_sigma max_sigma raw_std = 1 :=
      if_neg (by simp [heq])
    refine ⟨h1, ?_⟩
    unfold effStd
    rw [h1, Real.sqrt_one, one_pow]

theorem ratNormal_sigma_bounds_witness :
    (0:ℝ) ≤ 0 ∧
    (((0:ℝ) < 1 →
      effSigma 0 1 0 = 0 + (1 - 0) * sigmoid 0 ∧
      0 < effSigma 0 1 0 ∧ effSigma 0 1 0 < 1 ∧
      effStd 0 1 0 ^ 2 = effSigma 0 1 0) ∧
    ((0:ℝ) = 1 → effSigma 0 1 0 = 1 ∧ effStd 0 1 0 ^ 2 = 1)) :=
  ⟨le_refl 0, ratNormal_sigma_bounds 0 1 0 (le_refl 0)⟩

/-- C2 as stated is false on the code: with `min_mean = -1` and `max_mean = 0`
both set and `min_mean < max_mean`, the Python truthiness guard
`if self.max_mean:` is false (0.0 is falsy), so for raw mean 2 the effective
mean is the raw mean 2 itself — not the sigmoid-bounded value — and it lies
outside `[min_mean, max_mean] = [-1, 0]`. -/
theorem ratNormal_mean_claim_counterexample :
    (-1:ℝ) < 0 ∧
    effMean (some (-1)) (some 0) 2 = some 2 ∧
    effMean (some (-1)) (some 0) 2 ≠ some (sigmoid 2 * ((0:ℝ) - (-1)) + (-1)) ∧
    (2:ℝ) ∉ Set.Icc (-1:ℝ) 0 := by
  have h2 : effMean (some (-1)) (some 0) 2 = some 2 := by simp [effMean]
  refine ⟨by norm_num, h2, ?_, by norm_num⟩
  rw [h2]
  intro hcontra
  have heq := Option.some.inj hcontra
  have hs1 := sigmoid_lt_one 2
  norm_num at heq
  linarith

/-- C2 amended: when `min_mean` and `max_mean` are both set with
`min_mean < max_mean` *and `max_mean ≠ 0`* (the code's guard is the Python
truthiness of `max_mean`), the effective mean equals
`sigmoid raw * (max_mean - min_mean) + min_mean` and lies strictly between the
bounds; when `max_mean` is unset — or set to exactly `0.0` — the effective
mean is the raw trainable mean unchanged. -/
theorem ratNormal_mean_bounds (a b raw : ℝ) (hab : a < b) (hb : b ≠ 0) :
    effMean (some a) (some b) raw = some (sigmoid raw * (b - a) + a) ∧
    a < sigmoid raw * (b - a) + a ∧ sigmoid raw * (b - a) + a < b ∧
    (∀ r : ℝ, effMean none none r = some r) ∧
    (∀ (m : Option ℝ) (r : ℝ), effMean m (some 0) r = some r) := by
  have hs0 := sigmoid_pos raw
  have hs1 := sigmoid_lt_one raw
  refine ⟨by simp [effMean, hb], ?_, ?_, fun r => rfl, fun m r => by simp [effMean]⟩
  · nlinarith
  · nlinarith

theorem ratNormal_mean_bounds_witness :
    ((0:ℝ) < 1 ∧ (1:ℝ) ≠ 0) ∧
    (effMean (some 0) (some 1) 0 = some (sigmoid 0 * (1 - 0) + 0) ∧
     (0:ℝ) < sigmoid 0 * (1 - 0) + 0 ∧ sigmoid 0 * (1 - 0) + 0 < 1 ∧
     (∀ r : ℝ, effMean none none r = some r) ∧
     (∀ (m : Option ℝ) (r : ℝ), effMean m (some 0) r = some r)) :=
  ⟨⟨zero_lt_one, one_ne_zero⟩, ratNormal_mean_bounds 0 1 0 zero_lt_one one_ne_zero⟩

theorem chunkList_nil (C : ℕ) : chunkList C ([] : List α) = [] := by
  simp [chunkList]

theorem chunkList_ne_nil (C : ℕ) (hC : C ≠ 0) (l : List α) (hl : l ≠ []) :
    chunkList C l = l.take C :: chunkList C (l.drop C) := by
  match l with
  | [] => exact absurd rfl hl
  | x :: xs =>
    rw [chunkList]
    simp [hC]

theorem chunkList_length (C : ℕ) (hC : 0 < C) (l : List α) :
    (chunkList C l).length = (l.length + C - 1) / C := by
  suffices h : ∀ n (l : List α), l.length = n →
      (chunkList C l).length = (l.length + C - 1) / C from h l.length l rfl
  intro n
  induction n using Nat.strong_induction_on with
  | _ n ih =>
    intro l hl
    by_cases hnil : l = []
    · subst hnil
      simp [chunkList_nil]
      exact (Nat.div_eq_of_lt (by omega)).symm
    · rw [chunkList_ne_nil C (by omega) l hnil]
      have hpos : 0 < l.length := List.length_pos.mpr hnil
      have hdroplen : (l.drop C).length = l.length - C := List.length_drop C l
      have hih := ih (l.drop C).length (by omega) (l.drop C) rfl
      rw [hdroplen] at hih
      rw [List.length_cons, hih]
      by_cases hle : C ≤ l.length
      · have e1 : l.length - C + C - 1 = l.length - 1 := by omega
        have e2 : l.length + C - 1 = (l.length - 1) + C := by omega
        rw [e1, e2, Nat.add_div_right _ hC]
      · have e1 : l.length - C + C - 1 = C - 1 := by omega
        have e2 : l.length + C - 1 = (l.length - 1) + C := by omega
        rw [e1, e2, Nat.add_div_right _ hC,
          Nat.div_eq_of_lt (show C - 1 < C by omega),
          Nat.div_eq_of_lt (show l.length - 1 < C by omega)]

theorem subset_of_mem_chunkList (C : ℕ) (l : List α) (g : List α)
    (hg : g ∈ chunkList C l) : ∀ a ∈ g, a ∈ l := by
  suffices h : ∀ n (l : List α), l.length = n →
      ∀ g ∈ chunkList C l, ∀ a ∈ g, a ∈ l from h l.length l rfl g hg
  intro n
  induction n using Nat.strong_induction_on with
  | _ n ih =>
    intro l hl g hg a ha
    by_cases hnil : l = []
    · subst hnil; simp [chunkList_nil] at hg
    · by_cases hC : C = 0
      · subst hC
        match l with
        | x :: xs => simp [chunkList] at hg
      · rw [chunkList_ne_nil C hC l hnil] at hg
        have hpos : 0 < l.length := List.length_pos.mpr hnil
        rcases List.mem_cons.mp hg with h | h
        · subst h; exact List.take_subset C l ha
        · have hdroplen : (l.drop C).length = l.length - C := List.length_drop C l
          have := ih (l.drop C).length (by omega) (l.drop C) rfl g h a ha
          exact List.drop_subset C l this

theorem zipWith_add_replicate_zero (a : List ℝ) :
    List.zipWith (fun u v => u + v) (List.replicate a.length 0) a = a := by
  induction a with
  | nil => rfl
  | cons x xs ih => simp only [List.length_cons, List.replicate_succ,
      List.zipWith_cons_cons, zero_add, ih]

theorem groupSum_length (M : ℕ) (g : List (List ℝ))
    (hg : ∀ a ∈ g, a.length = M) : (groupSum M g).length = M := by
  induction g with
  | nil => simp [groupSum, zeroRow]
  | cons a g ih =>
    have ha : a.length = M := hg a (by simp)
    have ih' := ih (fun b hb => hg b (by simp [hb]))
    simp only [groupSum, List.foldr_cons] at ih' ⊢
    rw [List.length_zipWith, ih', ha]
    omega

theorem groupSum_append_zeroRows (M p : ℕ) (g : List (List ℝ)) :
    groupSum M (g ++ List.replicate p (zeroRow M)) = groupSum M g := by
  unfold groupSum
  rw [List.foldr_append]
  congr 1
  induction p with
  | zero => rfl
  | succ p ih =>
    rw [List.replicate_succ, List.foldr_cons, ih]
    have h := zipWith_add_replicate_zero (List.replicate M (0:ℝ))
    rw [List.length_replicate] at h
    exact h

theorem pad_div (F C : ℕ) (hC : 0 < C) :
    (F + padAmount F C + C - 1) / C = (F + C - 1) / C := by
  rcases Nat.eq_zero_or_pos (F % C) with hr | hr
  · have : padAmount F C = 0 := by
      unfold padAmount
      rw [hr, Nat.sub_zero, Nat.mod_self]
    rw [this, Nat.add_zero]
  · have hrlt : F % C < C := Nat.mod_lt F hC
    have hpad : padAmount F C = C - F % C := by
      unfold padAmount
      exact Nat.mod_eq_of_lt (by omega)
    obtain ⟨q, hq⟩ : ∃ q, F = C * q + F % C := ⟨F / C, (Nat.div_add_mod F C).symm⟩
    rw [hpad]
    have e1 : F + (C - F % C) + C - 1 = C * (q + 1) + (C - 1) := by
      rw [Nat.mul_add, Nat.mul_one]
      omega
    have e2 : F + C - 1 = C * q + (F % C + C - 1) := by omega
    rw [e1, e2, Nat.mul_add_div hC, Nat.mul_add_div hC,
      Nat.div_eq_of_lt (show C - 1 < C by omega)]
    have e3 : F % C + C - 1 = (F % C - 1) + C := by omega
    rw [e3, Nat.add_div_right _ hC, Nat.div_eq_of_lt (show F % C - 1 < C by omega)]

theorem chunkSum_pad (C M : ℕ) (hC : 0 < C) (l : List (List ℝ)) :
    (chunkList C (l ++ List.replicate (padAmount l.length C) (zeroRow M))).map
        (groupSum M)
      = (chunkList C l).map (groupSum M) := by
  suffices h : ∀ n (l : List (List ℝ)), l.length = n →
      (chunkList C (l ++ List.replicate (padAmount l.length C) (zeroRow M))).map
          (groupSum M)
        = (chunkList C l).map (groupSum M) from h l.length l rfl
  intro n
  induction n using Nat.strong_induction_on with
  | _ n ih =>
    intro l hl
    by_cases hnil : l = []
    · subst hnil
      have : padAmount 0 C = 0 := by
        unfold padAmount
        rw [Nat.zero_mod, Nat.sub_zero, Nat.mod_self]
      simp [this, chunkList_nil]
    · have hpos : 0 < l.length := List.length_pos.mpr hnil
      by_cases hle : C ≤ l.length
      · -- strip one full chunk; padding only affects the tail
        have hne2 : l ++ List.replicate (padAmount l.length C) (zeroRow M) ≠ [] := by
          simp [hnil]
        rw [chunkList_ne_nil C (by omega) _ hne2,
          chunkList_ne_nil C (by omega) l hnil]
        have htake : (l ++ List.replicate (padAmount l.length C) (zeroRow M)).take C
            = l.take C := by
          rw [List.take_append_eq_append_take,
            Nat.sub_eq_zero_of_le hle, List.take_zero, List.append_nil]
        have hdrop : (l ++ List.replicate (padAmount l.length C) (zeroRow M)).drop C
            = l.drop C ++ List.replicate (padAmount l.length C) (zeroRow M) := by
          rw [List.drop_append_eq_append_drop,
            Nat.sub_eq_zero_of_le hle, List.drop_zero]
        have hpadeq : padAmount l.length C = padAmount (l.drop C).length C := by
          unfold padAmount
          rw [List.length_drop]
          congr 2
          conv_lhs => rw [show l.length = (l.length - C) + C by omega]
          rw [Nat.add_mod_right]
        have hdroplen : (l.drop C).length = l.length - C := List.length_drop C l
        have hih := ih (l.drop C).length (by omega) (l.drop C) rfl
        rw [htake, hdrop, List.map_cons, List.map_cons, hpadeq, hih]
      · -- short remainder: one padded chunk, equal by zero-absorption
        have hmod : l.length % C = l.length := Nat.mod_eq_of_lt (by omega)
        have hpad : padAmount l.length C = C - l.length := by
          unfold padAmount
          rw [hmod]
          exact Nat.mod_eq_of_lt (by omega)
        have hlen : (l ++ List.replicate (padAmount l.length C) (zeroRow M)).length
            = C := by
          rw [List.length_append, List.length_replicate, hpad]
          omega
        have hne2 : l ++ List.replicate (padAmount l.length C) (zeroRow M) ≠ [] := by
          simp [hnil]
        rw [chunkList_ne_nil C (by omega) _ hne2,
          chunkList_ne_nil C (by omega) l hnil,
          List.take_of_length_le (le_of_eq hlen),
          List.take_of_length_le (show l.length ≤ C by omega),
          List.drop_eq_nil_of_le (le_of_eq hlen),
          List.drop_eq_nil_of_le (show l.length ≤ C by omega),
          chunkList_nil]
        simp only [List.map_cons, List.map_nil]
        rw [groupSum_append_zeroRows]

theorem padRows_eq (pad M : ℕ) (y : List (List (List ℝ))) :
    padRows pad M y = y.map fun row => row ++ List.replicate pad (zeroRow M) := by
  unfold padRows
  split_ifs with h
  · subst h; simp
  · rfl

theorem baseLeafForward_length (ll : ℕ → ℕ → ℝ → ℝ) (M : ℕ) (x : List (List ℝ)) :
    (baseLeafForward ll M x).length = x.length := by
  unfold baseLeafForward
  rw [List.length_map]

theorem baseLeafForward_row_length (ll : ℕ → ℕ → ℝ → ℝ) (M : ℕ)
    (x : List (List ℝ)) (r : List (List ℝ)) (hr : r ∈ baseLeafForward ll M x) :
    ∃ row ∈ x, r.length = row.length := by
  unfold baseLeafForward at hr
  obtain ⟨row, hrow, rfl⟩ := List.mem_map.mp hr
  exact ⟨row, hrow, by rw [List.length_map, List.enum_length]⟩

theorem baseLeafForward_entry_length (ll : ℕ → ℕ → ℝ → ℝ) (M : ℕ)
    (x : List (List ℝ)) (r : List (List ℝ)) (hr : r ∈ baseLeafForward ll M x)
    (g : List ℝ) (hg : g ∈ r) : g.length = M := by
  unfold baseLeafForward at hr
  obtain ⟨row, hrow, rfl⟩ := List.mem_map.mp hr
  obtain ⟨fv, hfv, rfl⟩ := List.mem_map.mp hg
  rw [List.length_map, List.length_range]

/-- C3: for a layer with `in_features = F`, `cardinality = C`,
`multiplicity = M` and an input batch of `B` rows of `F` features each,
forward returns a tensor of shape `[B, ⌈F/C⌉, M]` (with the natural-number
ceiling `⌈F/C⌉ = (F + C - 1) / C`). -/
theorem independentMultivariate_forward_shape (ll : ℕ → ℕ → ℝ → ℝ)
    (M C F B : ℕ) (x : List (List ℝ)) (hC : 0 < C) (hB : x.length = B)
    (hF : ∀ row ∈ x, row.length = F) :
    (IndependentMultivariate.forward ll M C F x).length = B ∧
    ∀ r ∈ IndependentMultivariate.forward ll M C F x,
      r.length = (F + C - 1) / C ∧ ∀ g ∈ r, g.length = M := by
  unfold IndependentMultivariate.forward prodForward
  rw [padRows_eq]
  constructor
  · rw [List.length_map, List.length_map, baseLeafForward_length, hB]
  · intro r hr
    rw [List.mem_map] at hr
    obtain ⟨prow, hprow, rfl⟩ := hr
    rw [List.mem_map] at hprow
    obtain ⟨brow, hbrow, rfl⟩ := hprow
    have hbl : brow.length = F := by
      obtain ⟨row, hrow, he⟩ := baseLeafForward_row_length ll M x brow hbrow
      rw [he, hF row hrow]
    constructor
    · rw [List.length_map, chunkList_length C hC, List.length_append,
        List.length_replicate, hbl, pad_div F C hC]
    · intro g hg
      rw [List.mem_map] at hg
      obtain ⟨ch, hch, rfl⟩ := hg
      apply groupSum_length
      intro a ha
      have hmem := subset_of_mem_chunkList C _ ch hch a ha
      rcases List.mem_append.mp hmem with h | h
      · exact baseLeafForward_entry_length ll M x brow hbrow a h
      · rw [List.eq_of_mem_replicate h]
        simp [zeroRow]

theorem independentMultivariate_forward_shape_witness :
    (0 < 3 ∧ ([[(1:ℝ), 2, 3, 4, 5, 6, 7]] : List (List ℝ)).length = 1 ∧
      ∀ row ∈ ([[(1:ℝ), 2, 3, 4, 5, 6, 7]] : List (List ℝ)), row.length = 7) ∧
    ((IndependentMultivariate.forward (fun _ _ _ => (0:ℝ)) 4 3 7
        [[(1:ℝ), 2, 3, 4, 5, 6, 7]]).length = 1 ∧
     ∀ r ∈ IndependentMultivariate.forward (fun _ _ _ => (0:ℝ)) 4 3 7
        [[(1:ℝ), 2, 3, 4, 5, 6, 7]],
       r.length = (7 + 3 - 1) / 3 ∧ ∀ g ∈ r, g.length = 4) :=
  ⟨⟨by decide, rfl, by simp⟩,
   independentMultivariate_forward_shape (fun _ _ _ => (0:ℝ)) 4 3 7 1
     [[(1:ℝ), 2, 3, 4, 5, 6, 7]] (by decide) rfl (by simp)⟩

/-- C4: forward appends exactly `pad_amount` zero-valued slices at the end of
the feature axis of the per-feature log-likelihood tensor before grouping
(second conjunct), the grouped result equals the result obtained by omitting
the padded positions from their group's sum (first conjunct), and when
`pad_amount = 0` no padding is applied (third conjunct). -/
theorem independentMultivariate_forward_pad_equiv (ll : ℕ → ℕ → ℝ → ℝ)
    (M C F : ℕ) (x : List (List ℝ)) (hC : 0 < C)
    (hF : ∀ row ∈ x, row.length = F) :
    IndependentMultivariate.forward ll M C F x
      = IndependentMultivariate.forwardNoPad ll M C x ∧
    padRows (padAmount F C) M (baseLeafForward ll M x)
      = (baseLeafForward ll M x).map
          (fun row => row ++ List.replicate (padAmount F C) (zeroRow M)) ∧
    ∀ y : List (List (List ℝ)), padRows 0 M y = y := by
  refine ⟨?_, padRows_eq _ _ _, fun y => rfl⟩
  unfold IndependentMultivariate.forward IndependentMultivariate.forwardNoPad prodForward
  rw [padRows_eq, List.map_map]
  apply List.map_congr_left
  intro brow hbrow
  have hbl : brow.length = F := by
    obtain ⟨row, hrow, he⟩ := baseLeafForward_row_length ll M x brow hbrow
    rw [he, hF row hrow]
  simp only [Function.comp]
  rw [← hbl]
  exact chunkSum_pad C M hC brow

theorem independentMultivariate_forward_pad_equiv_witness :
    (0 < 3 ∧ ∀ row ∈ ([[(1:ℝ), 2, 3, 4, 5]] : List (List ℝ)), row.length = 5) ∧
    (IndependentMultivariate.forward (fun _ _ _ => (0:ℝ)) 2 3 5
        [[(1:ℝ), 2, 3, 4, 5]]
      = IndependentMultivariate.forwardNoPad (fun _ _ _ => (0:ℝ)) 2 3
        [[(1:ℝ), 2, 3, 4, 5]] ∧
    padRows (padAmount 5 3) 2 (baseLeafForward (fun _ _ _ => (0:ℝ)) 2
        [[(1:ℝ), 2, 3, 4, 5]])
      = (baseLeafForward (fun _ _ _ => (0:ℝ)) 2 [[(1:ℝ), 2, 3, 4, 5]]).map
          (fun row => row ++ List.replicate (padAmount 5 3) (zeroRow 2)) ∧
    ∀ y : List (List (List ℝ)), padRows 0 2 y = y) :=
  ⟨⟨by decide, by simp⟩,
   independentMultivariate_forward_pad_equiv (fun _ _ _ => (0:ℝ)) 2 3 5
     [[(1:ℝ), 2, 3, 4, 5]] (by decide) (by simp)⟩
